import Mathlib

/-!
Verification of `src/main.py` of the correction-script repository.

Strings are embedded as `List Char`.  The Python library primitives the
script calls (`str.lower`, `str.replace`, `str.strip`, `str.endswith`,
substring containment `in`, `os.path.basename`, `os.path.splitext`,
`zipfile.ZipFile.extractall`, `shutil.copyfile`, `shutil.rmtree`) are
modelled on `List Char`; `str.lower` is modelled on the character
repertoire the program cares about (ASCII letters, the German special
characters and a sample other accented letter), all other characters
being fixed points.  File-system interaction is modelled by passing the
relevant directory listings explicitly and recording the script's side
effects (copies, warnings, error logs, scratch-directory removal) as an
event trace.
-/

namespace CorrectionScript

/-- Python `str.lower`, restricted to the characters relevant to this
program: ASCII `A`-`Z`, the upper-case German special characters
`Ä`/`Ö`/`Ü`/`ẞ` (whose Python lower-case forms are `ä`/`ö`/`ü`/`ß`), and
`É` as a representative other accented capital.  Every other character is
left unchanged. -/
def pyLowerChar (c : Char) : Char :=
  if 'A' ≤ c && c ≤ 'Z' then Char.ofNat (c.toNat + 32)
  else if c = 'Ä' then 'ä'
  else if c = 'Ö' then 'ö'
  else if c = 'Ü' then 'ü'
  else if c = 'ẞ' then 'ß'
  else if c = 'É' then 'é'
  else c

/-- Python `str.lower` over a whole string. -/
def pyLower (s : List Char) : List Char :=
  s.map pyLowerChar

/-- `begins l p` is true when the string `p` starts the string `l`
(Python `str.startswith`, used to model substring containment). -/
def begins : List Char → List Char → Bool
  | _, [] => true
  | [], _ :: _ => false
  | a :: as, b :: bs => a == b && begins as bs

/-- Python substring containment `pat in hay` on strings: `pat` occurs
contiguously somewhere in `hay`. -/
def hasSub : List Char → List Char → Bool
  | [], pat => pat.isEmpty
  | h :: t, pat => begins (h :: t) pat || hasSub t pat

/-- The mathematical statement that `pat` is a contiguous substring of
`hay`. -/
def SubstringOf (pat hay : List Char) : Prop :=
  ∃ l r, l ++ pat ++ r = hay

/-- Python `f.endswith(".pdf")`. -/
def endsWithPdf (f : List Char) : Bool :=
  begins f.reverse (".pdf".toList.reverse)

/-- The characters Python `str.strip` removes (ASCII whitespace). -/
def isPySpace (c : Char) : Bool :=
  c == ' ' || c == '\t' || c == '\n' || c == '\r' || c == '\x0b' || c == '\x0c'

/-- Python `line.strip()`: drop leading and trailing whitespace.
`read_student_names` applies this to every roster line (main.py line 42). -/
def stripLine (s : List Char) : List Char :=
  ((s.dropWhile isPySpace).reverse.dropWhile isPySpace).reverse

/-- `read_student_names` (main.py lines 27-45): the roster file is read
line by line and each line is stripped; the file content is passed in as
its list of lines. -/
def read_student_names (lines : List (List Char)) : List (List Char) :=
  lines.map stripLine

/-- Python `student.replace(", ", "_")` (main.py line 83): every
occurrence of the two-character pattern comma-space is replaced by a
single underscore, scanning left to right. -/
def replaceCommaSpace : List Char → List Char
  | [] => []
  | [c] => [c]
  | c₁ :: c₂ :: rest =>
    if c₁ = ',' ∧ c₂ = ' ' then '_' :: replaceCommaSpace rest
    else c₁ :: replaceCommaSpace (c₂ :: rest)

/-- The `umlaut_map` lookup `umlaut_map.get(c, c)` of main.py line 81:
`ä`/`ö`/`ü`/`ß` become `ae`/`oe`/`ue`/`ss`, every other character maps to
itself. -/
def umlautSub (c : Char) : List Char :=
  if c = 'ä' then ['a', 'e']
  else if c = 'ö' then ['o', 'e']
  else if c = 'ü' then ['u', 'e']
  else if c = 'ß' then ['s', 's']
  else [c]

/-- `''.join(umlaut_map.get(c, c) for c in s)` of main.py line 83. -/
def expandUmlauts : List Char → List Char
  | [] => []
  | c :: rest => umlautSub c ++ expandUmlauts rest

/-- The per-name body of `prepare_student_names` (main.py line 83):
replace comma-space, lower-case, then substitute the four special
characters. -/
def prepareName (s : List Char) : List Char :=
  expandUmlauts (pyLower (replaceCommaSpace s))

/-- `prepare_student_names` (main.py lines 71-85). -/
def prepare_student_names (students : List (List Char)) : List (List Char) :=
  students.map prepareName

/-- The match test of main.py line 101:
`any(student in homework.lower() for student in student_set)`.
The Python set is embedded as the list of its elements; `any` only uses
membership, so the order is irrelevant. -/
def matchesEntry (tokens : List (List Char)) (name : List Char) : Bool :=
  tokens.any (fun t => hasSub (pyLower name) t)

/-- A zip archive handed to `unzip`: its path on disk, and either the
list of its entries (relative path inside the archive, file content) when
it is a well-formed zip, or `none` when `zipfile.ZipFile` raises
`BadZipFile` on it. -/
structure ZipInput where
  path : List Char
  entries : Option (List (List Char × List Char))
deriving DecidableEq

/-- `os.path.basename`: the part of the path after the last slash. -/
def pyBasename (p : List Char) : List Char :=
  (p.reverse.takeWhile (fun c => c ≠ '/')).reverse

/-- The stem component of `os.path.splitext` on a file name: everything
before the last dot, except that a name whose characters before that dot
are all dots (e.g. `.bashrc`) is returned whole. -/
def splitextStem (b : List Char) : List Char :=
  let revAfter := b.reverse.takeWhile (fun c => c ≠ '.')
  if revAfter.length = b.length then b
  else
    let stem := ((b.reverse.drop revAfter.length).drop 1).reverse
    if stem.all (fun c => c = '.') then b else stem

/-- `os.path.join` of a directory and a relative path. -/
def joinPath (dir p : List Char) : List Char :=
  dir ++ '/' :: p

/-- `unzip` (main.py lines 48-68): extract every entry of the archive
into the output directory, preserving the relative paths, and return
`os.path.splitext(os.path.basename(file))[0]`; on a malformed archive the
`BadZipFile` error is logged and re-raised to the caller, with nothing
extracted. -/
def unzip (z : ZipInput) (output : List Char) :
    Except Unit (List (List Char × List Char) × List Char) :=
  match z.entries with
  | none => Except.error ()
  | some es =>
      Except.ok (es.map (fun e => (joinPath output e.1, e.2)),
                 splitextStem (pyBasename z.path))

/-- One entry of the submission root directory (`temp/<zip>/Abgaben`):
either a regular file, or a submission folder with its directory listing
(child file name paired with content, in `os.listdir` order). -/
inductive RootEntry
  | file (name content : List Char)
  | dir (name : List Char) (files : List (List Char × List Char))
deriving DecidableEq

/-- The name under which an entry appears in the submission root. -/
def RootEntry.name : RootEntry → List Char
  | .file n _ => n
  | .dir n _ => n

/-- The observable side effects of a run, in program order. -/
inductive Event
  | copyFile (name content : List Char)
  | warnNoPdf (folder : List Char)
  | logError (err : List Char)
  | removeTemp
deriving DecidableEq

/-- `extract_homeworks` (main.py lines 88-110): walk the submission-root
listing in order; a non-matching entry is skipped; for a matching folder
the first child whose name ends in `.pdf` is copied into the output
folder under its own name, or a warning is emitted when there is none.
`os.listdir` on a matching entry that is a regular file raises
`NotADirectoryError`; this aborts the whole loop, which is modelled by
returning the offending entry name in the second component, with no
further entries processed. -/
def extract_homeworks (tokens : List (List Char)) :
    List RootEntry → List Event × Option (List Char)
  | [] => ([], none)
  | RootEntry.file n _ :: rest =>
      if matchesEntry tokens n then ([], some n)
      else extract_homeworks tokens rest
  | RootEntry.dir n files :: rest =>
      if matchesEntry tokens n then
        match files.filter (fun f => endsWithPdf f.1) with
        | [] =>
            (Event.warnNoPdf n :: (extract_homeworks tokens rest).1,
             (extract_homeworks tokens rest).2)
        | p :: _ =>
            (Event.copyFile p.1 p.2 :: (extract_homeworks tokens rest).1,
             (extract_homeworks tokens rest).2)
      else extract_homeworks tokens rest

/-- The copy operations of a trace, in order. -/
def copiesOf (evs : List Event) : List (List Char × List Char) :=
  evs.filterMap (fun e =>
    match e with
    | Event.copyFile n c => some (n, c)
    | _ => none)

/-- The no-PDF warnings of a trace, in order. -/
def warningsOf (evs : List Event) : List (List Char) :=
  evs.filterMap (fun e =>
    match e with
    | Event.warnNoPdf n => some n
    | _ => none)

/-- The error log lines of a trace, in order. -/
def errorsOf (evs : List Event) : List (List Char) :=
  evs.filterMap (fun e =>
    match e with
    | Event.logError m => some m
    | _ => none)

/-- The error taxonomy of the spec, rendered as the log text identity
used below: which failure the orchestrator caught. -/
def invalidArchiveErr : List Char := "InvalidArchive".toList

/-- Log text for a roster-file read failure (`IOError`). -/
def rosterReadErr : List Char := "RosterReadFailure".toList

/-- Log text for a missing `Abgaben` directory (`FileNotFoundError`
raised at main.py line 137). -/
def missingRootErr : List Char := "MissingSubmissionRoot".toList

/-- Log text for `NotADirectoryError` escaping `extract_homeworks`,
tagged with the offending entry name. -/
def notADirErr (n : List Char) : List Char := "NotADirectoryError:".toList ++ n

/-- The external world one invocation of `main` runs against: the
archive handed to `--z`, whether `resources/students.txt` is readable and
its lines when it is, whether `temp/<zip-name>/Abgaben` exists after
extraction, and its listing when it does. -/
structure RunInput where
  zip : ZipInput
  rosterOk : Bool
  rosterLines : List (List Char)
  hasAbgaben : Bool
  abgaben : List RootEntry
deriving DecidableEq

/-- The canonical-token set of a run (main.py line 133). -/
def runTokens (inp : RunInput) : List (List Char) :=
  prepare_student_names (read_student_names inp.rosterLines)

/-- The `try` block of `main` (main.py lines 130-139): unzip, read the
roster, prepare the tokens, check for `Abgaben`, extract; the first
failure stops the block and is reported in the second component. -/
def tryBody (inp : RunInput) : List Event × Option (List Char) :=
  match inp.zip.entries with
  | none => ([], some invalidArchiveErr)
  | some _ =>
      if inp.rosterOk = false then ([], some rosterReadErr)
      else if inp.hasAbgaben = false then ([], some missingRootErr)
      else
        match extract_homeworks (runTokens inp) inp.abgaben with
        | (evs, none) => (evs, none)
        | (evs, some n) => (evs, some (notADirErr n))

/-- What one invocation of `main` leaves behind: its event trace and the
process exit status. -/
structure MainResult where
  events : List Event
  exitCode : Nat
deriving DecidableEq

/-- `main` (main.py lines 113-146): run the `try` block; any exception is
caught by `except Exception` and logged; the `finally` block removes the
scratch directory; `main` then returns normally, so the process exit
status is 0 on every path. -/
def main (inp : RunInput) : MainResult :=
  ⟨(tryBody inp).1
     ++ (tryBody inp).2.elim [] (fun err => [Event.logError err])
     ++ [Event.removeTemp], 0⟩

/-- Whether the scratch directory still exists after a trace: it exists
when the trace starts (created at main.py line 127) and `removeTemp`
deletes it. -/
def scratchLeft (evs : List Event) : Bool :=
  evs.foldl (fun s e =>
    match e with
    | Event.removeTemp => false
    | _ => s) true

/-- `shutil.copyfile` into the output directory: writing a name that is
already present replaces its content, otherwise the file is appended to
the directory. -/
def insertCopy (d : List (List Char × List Char)) (c : List Char × List Char) :
    List (List Char × List Char) :=
  if d.any (fun e => e.1 = c.1) then
    d.map (fun e => if e.1 = c.1 then c else e)
  else d ++ [c]

/-- Replay a list of copy operations on a directory state. -/
def applyCopies (d : List (List Char × List Char))
    (cs : List (List Char × List Char)) : List (List Char × List Char) :=
  cs.foldl insertCopy d

/-- The content stored under a name in a directory state. -/
def lookupName (d : List (List Char × List Char)) (n : List Char) :
    Option (List Char) :=
  match d with
  | [] => none
  | e :: rest => if e.1 = n then some e.2 else lookupName rest n

/-- The final output directory of one run started on an empty output
directory. -/
def runOutputDir (inp : RunInput) : List (List Char × List Char) :=
  applyCopies [] (copiesOf (main inp).events)

/-- How one and the same extracted archive can appear to two runs: the
entries are literally equal, or they are the same folder whose children
the file system enumerated in a different order — constrained to folders
holding at most one PDF, since for a folder with several PDFs the choice
of `pdf_files[0]` (main.py line 105) depends on that order. -/
def entryRel (e e' : RootEntry) : Prop :=
  e = e' ∨ ∃ n files files', e = RootEntry.dir n files ∧ e' = RootEntry.dir n files'
    ∧ files.Perm files'
    ∧ (files.filter (fun f => endsWithPdf f.1)).length ≤ 1

/-! ### Helper lemmas -/

theorem begins_iff : ∀ l p : List Char, begins l p = true ↔ ∃ r, p ++ r = l
  | l, [] => by simp [begins]
  | [], b :: bs => by simp [begins]
  | a :: as, b :: bs => by
      rw [begins, Bool.and_eq_true, beq_iff_eq, begins_iff as bs]
      constructor
      · rintro ⟨rfl, r, rfl⟩
        exact ⟨r, rfl⟩
      · rintro ⟨r, hr⟩
        simp only [List.cons_append] at hr
        injection hr with h1 h2
        exact ⟨h1.symm, r, h2⟩

theorem hasSub_iff : ∀ hay pat : List Char, hasSub hay pat = true ↔ SubstringOf pat hay
  | [], pat => by
      cases pat with
      | nil => simp [hasSub, SubstringOf]
      | cons b bs => simp [hasSub, SubstringOf]
  | h :: t, pat => by
      rw [hasSub, Bool.or_eq_true, begins_iff, hasSub_iff t pat]
      constructor
      · rintro (⟨r, hr⟩ | ⟨l, r, rfl⟩)
        · exact ⟨[], r, by simpa using hr⟩
        · exact ⟨h :: l, r, rfl⟩
      · rintro ⟨l, r, hl⟩
        cases l with
        | nil => exact Or.inl ⟨r, by simpa using hl⟩
        | cons a l' =>
            refine Or.inr ?_
            simp only [List.cons_append] at hl
            injection hl with h1 h2
            exact ⟨l', r, h2⟩

theorem hasSub_nil (hay : List Char) : hasSub hay [] = true := by
  cases hay with
  | nil => rfl
  | cons h t => simp [hasSub, begins]

theorem mem_replaceCommaSpace (c : Char) (h1 : c ≠ ',') (h2 : c ≠ ' ') :
    ∀ s : List Char, c ∈ s → c ∈ replaceCommaSpace s
  | [], h => absurd h (List.not_mem_nil c)
  | [a], h => by simpa [replaceCommaSpace] using h
  | a :: b :: rest, h => by
      by_cases hab : a = ',' ∧ b = ' '
      · rw [replaceCommaSpace, if_pos hab]
        rcases List.mem_cons.mp h with rfl | h
        · exact absurd hab.1 h1
        rcases List.mem_cons.mp h with rfl | h
        · exact absurd hab.2 h2
        exact List.mem_cons_of_mem _ (mem_replaceCommaSpace c h1 h2 rest h)
      · rw [replaceCommaSpace, if_neg hab]
        rcases List.mem_cons.mp h with rfl | h
        · exact List.mem_cons_self ..
        exact List.mem_cons_of_mem _ (mem_replaceCommaSpace c h1 h2 (b :: rest) h)

theorem expandUmlauts_append : ∀ l₁ l₂ : List Char,
    expandUmlauts (l₁ ++ l₂) = expandUmlauts l₁ ++ expandUmlauts l₂
  | [], _ => rfl
  | c :: rest, l₂ => by
      rw [List.cons_append, expandUmlauts, expandUmlauts,
          expandUmlauts_append rest l₂, List.append_assoc]

theorem substringOf_umlautSub_of_mem (c : Char) :
    ∀ s : List Char, c ∈ s → SubstringOf (umlautSub c) (expandUmlauts s) := by
  intro s hc
  obtain ⟨l₁, l₂, rfl⟩ := List.append_of_mem hc
  refine ⟨expandUmlauts l₁, expandUmlauts l₂, ?_⟩
  rw [expandUmlauts_append, expandUmlauts, List.append_assoc]

theorem digraph_of_mem (c : Char) (h1 : c ≠ ',') (h2 : c ≠ ' ')
    (s : List Char) (hc : c ∈ s) :
    SubstringOf (umlautSub (pyLowerChar c)) (prepareName s) := by
  have hr := mem_replaceCommaSpace c h1 h2 s hc
  have hm : pyLowerChar c ∈ pyLower (replaceCommaSpace s) :=
    List.mem_map_of_mem _ hr
  exact substringOf_umlautSub_of_mem _ _ hm

theorem dropWhile_eq_nil_of_all (p : Char → Bool) :
    ∀ l : List Char, l.all p = true → l.dropWhile p = []
  | [], _ => rfl
  | c :: t, h => by
      rw [List.all_cons, Bool.and_eq_true] at h
      simp [List.dropWhile_cons, h.1, dropWhile_eq_nil_of_all p t h.2]

theorem takeWhile_append_stop (p : Char → Bool) (m : Char) (hm : p m = false) :
    ∀ l r : List Char, (∀ c ∈ l, p c = true) → (l ++ m :: r).takeWhile p = l
  | [], r, _ => by simp [List.takeWhile_cons, hm]
  | c :: t, r, h => by
      have hc : p c = true := h c (List.mem_cons_self ..)
      simp [List.takeWhile_cons, hc,
        takeWhile_append_stop p m hm t r (fun x hx => h x (List.mem_cons_of_mem c hx))]

theorem find?_eq_filter_head (q : List Char × List Char → Bool) :
    ∀ l : List (List Char × List Char), l.find? q = (l.filter q).head?
  | [] => rfl
  | x :: t => by
      by_cases hx : q x = true
      · rw [List.find?_cons_of_pos _ hx, List.filter_cons_of_pos hx, List.head?_cons]
      · rw [List.find?_cons_of_neg _ hx, List.filter_cons_of_neg hx]
        exact find?_eq_filter_head q t

theorem extract_skip (tokens : List (List Char)) (e : RootEntry)
    (rest : List RootEntry) (h : matchesEntry tokens e.name = false) :
    extract_homeworks tokens (e :: rest) = extract_homeworks tokens rest := by
  cases e with
  | file n c =>
      simp only [RootEntry.name] at h
      rw [extract_homeworks, if_neg (by simp [h])]
  | dir n files =>
      simp only [RootEntry.name] at h
      rw [extract_homeworks, if_neg (by simp [h])]

theorem extract_skip_all (tokens : List (List Char)) :
    ∀ pre l : List RootEntry, (∀ e ∈ pre, matchesEntry tokens e.name = false) →
      extract_homeworks tokens (pre ++ l) = extract_homeworks tokens l
  | [], _, _ => rfl
  | e :: pre, l, h => by
      rw [List.cons_append, extract_skip tokens e _ (h e (List.mem_cons_self ..)),
          extract_skip_all tokens pre l (fun x hx => h x (List.mem_cons_of_mem e hx))]

theorem lookupName_append_last :
    ∀ (d : List (List Char × List Char)) (n v : List Char),
      (∀ e ∈ d, e.1 ≠ n) → lookupName (d ++ [(n, v)]) n = some v
  | [], n, v, _ => by simp [lookupName]
  | e :: t, n, v, h => by
      rw [List.cons_append, lookupName, if_neg (h e (List.mem_cons_self ..))]
      exact lookupName_append_last t n v (fun x hx => h x (List.mem_cons_of_mem e hx))

theorem lookupName_map_replace :
    ∀ (d : List (List Char × List Char)) (n v : List Char),
      d.any (fun e => e.1 = n) = true →
      lookupName (d.map (fun e => if e.1 = n then (n, v) else e)) n = some v
  | [], n, v, h => by simp at h
  | e :: t, n, v, h => by
      by_cases he : e.1 = n
      · simp [lookupName, he]
      · simp only [List.any_cons, Bool.or_eq_true, decide_eq_true_eq] at h
        rcases h with h | h
        · exact absurd h he
        simp only [List.map_cons, if_neg he, lookupName, if_neg he]
        exact lookupName_map_replace t n v h

theorem lookupName_insertCopy (d : List (List Char × List Char)) (n v : List Char) :
    lookupName (insertCopy d (n, v)) n = some v := by
  by_cases ha : d.any (fun e => e.1 = (n, v).1) = true
  · rw [insertCopy, if_pos ha]
    exact lookupName_map_replace d n v ha
  · rw [insertCopy, if_neg ha]
    refine lookupName_append_last d n v ?_
    intro e he
    simp only [List.any_eq_true, decide_eq_true_eq, not_exists, not_and] at ha
    exact ha e he

theorem applyCopies_append_single (d : List (List Char × List Char))
    (cs : List (List Char × List Char)) (c : List Char × List Char) :
    applyCopies d (cs ++ [c]) = insertCopy (applyCopies d cs) c := by
  simp [applyCopies, List.foldl_append]

theorem pyBasename_append (d x : List Char) (hx : '/' ∉ x) :
    pyBasename (d ++ '/' :: x) = x := by
  have hall : ∀ c ∈ x.reverse, (decide (c ≠ '/')) = true := by
    intro c hc
    rw [decide_eq_true_eq]
    intro hceq
    exact hx (hceq ▸ List.mem_reverse.mp hc)
  rw [pyBasename, List.reverse_append, List.reverse_cons, List.append_assoc,
      List.singleton_append,
      takeWhile_append_stop _ '/' (by decide) x.reverse d.reverse hall,
      List.reverse_reverse]

theorem splitextStem_zip (b : List Char) (hb : b ≠ []) (hdot : '.' ∉ b) :
    splitextStem (b ++ ".zip".toList) = b := by
  have hrev : (b ++ ".zip".toList).reverse = ['p', 'i', 'z'] ++ '.' :: b.reverse := by
    rw [List.reverse_append]
    rfl
  have htake : (b ++ ".zip".toList).reverse.takeWhile (fun c => c ≠ '.')
      = ['p', 'i', 'z'] := by
    rw [hrev]
    exact takeWhile_append_stop _ '.' (by decide) ['p', 'i', 'z'] b.reverse (by decide)
  have hdrop : (((b ++ ".zip".toList).reverse.drop
        (['p', 'i', 'z'] : List Char).length).drop 1).reverse = b := by
    rw [hrev, List.drop_left]
    simp
  have hallf : ¬(b.all (fun c => decide (c = '.')) = true) := by
    intro hall
    rcases List.exists_mem_of_ne_nil b hb with ⟨c, hc⟩
    have hcd := List.all_eq_true.mp hall c hc
    rw [decide_eq_true_eq] at hcd
    exact hdot (hcd ▸ hc)
  have hlen : ¬((['p', 'i', 'z'] : List Char).length = (b ++ ".zip".toList).length) := by
    intro hl
    simp [List.length_append] at hl
  rw [splitextStem, htake, hdrop, if_neg hlen]
  show (if (b.all fun c => decide (c = '.')) = true then b ++ ".zip".toList else b) = b
  rw [if_neg hallf]

theorem tryBody_invalid (inp : RunInput) (h : inp.zip.entries = none) :
    tryBody inp = ([], some invalidArchiveErr) := by
  unfold tryBody
  rw [h]

theorem tryBody_roster (inp : RunInput) (es : List (List Char × List Char))
    (h : inp.zip.entries = some es) (hr : inp.rosterOk = false) :
    tryBody inp = ([], some rosterReadErr) := by
  unfold tryBody
  rw [h]
  simp [hr]

theorem tryBody_missing (inp : RunInput) (es : List (List Char × List Char))
    (h : inp.zip.entries = some es) (hr : inp.rosterOk = true)
    (ha : inp.hasAbgaben = false) :
    tryBody inp = ([], some missingRootErr) := by
  unfold tryBody
  rw [h]
  simp [hr, ha]

theorem scratchLeft_concat_removeTemp (l : List Event) :
    scratchLeft (l ++ [Event.removeTemp]) = false := by
  rw [scratchLeft, List.foldl_append]
  rfl

theorem filter_eq_of_perm_of_le_one (q : List Char × List Char → Bool)
    (files files' : List (List Char × List Char)) (hp : files.Perm files')
    (hl : (files.filter q).length ≤ 1) :
    files.filter q = files'.filter q := by
  have hpf : (files.filter q).Perm (files'.filter q) := hp.filter q
  cases hf : files.filter q with
  | nil =>
      rw [hf] at hpf
      exact (List.perm_nil.mp hpf.symm).symm
  | cons x xs =>
      cases xs with
      | nil =>
          rw [hf] at hpf
          exact List.singleton_perm.mp hpf
      | cons y t =>
          rw [hf] at hl
          simp at hl

theorem extract_cons_congr (tokens : List (List Char)) (e : RootEntry)
    (t t' : List RootEntry)
    (h : extract_homeworks tokens t = extract_homeworks tokens t') :
    extract_homeworks tokens (e :: t) = extract_homeworks tokens (e :: t') := by
  cases e with
  | file n c => rw [extract_homeworks, extract_homeworks, h]
  | dir n files => rw [extract_homeworks, extract_homeworks, h]

theorem extract_dir_perm (tokens : List (List Char)) (n : List Char)
    (files files' : List (List Char × List Char)) (rest : List RootEntry)
    (hp : files.Perm files')
    (hl : (files.filter (fun f => endsWithPdf f.1)).length ≤ 1) :
    extract_homeworks tokens (RootEntry.dir n files :: rest)
      = extract_homeworks tokens (RootEntry.dir n files' :: rest) := by
  have hfe := filter_eq_of_perm_of_le_one (fun f => endsWithPdf f.1) files files' hp hl
  rw [extract_homeworks, extract_homeworks, ← hfe]

theorem extract_forall₂ (tokens : List (List Char)) :
    ∀ l l' : List RootEntry, List.Forall₂ entryRel l l' →
      extract_homeworks tokens l = extract_homeworks tokens l'
  | [], [], _ => rfl
  | [], _ :: _, h => by cases h
  | _ :: _, [], h => by cases h
  | e :: t, e' :: t', h => by
      cases h with
      | cons he ht =>
          have ih := extract_forall₂ tokens t t' ht
          rcases he with rfl | ⟨n, files, files', rfl, rfl, hp, hl⟩
          · exact extract_cons_congr tokens e t t' ih
          · calc extract_homeworks tokens (RootEntry.dir n files :: t)
                = extract_homeworks tokens (RootEntry.dir n files' :: t) :=
                  extract_dir_perm tokens n files files' t hp hl
              _ = extract_homeworks tokens (RootEntry.dir n files' :: t') :=
                  extract_cons_congr tokens (RootEntry.dir n files') t t' ih

theorem stripLine_eq_nil_of_all (line : List Char) (h : line.all isPySpace = true) :
    stripLine line = [] := by
  rw [stripLine, dropWhile_eq_nil_of_all isPySpace line h]
  rfl

theorem matchesEntry_of_nil_mem (tokens : List (List Char)) (name : List Char)
    (h : [] ∈ tokens) : matchesEntry tokens name = true := by
  rw [matchesEntry, List.any_eq_true]
  exact ⟨[], h, hasSub_nil _⟩

/-! ### Claim theorems -/

/-- C1: roster-name normalization first replaces the literal substring
comma-space with an underscore, then lower-cases, then substitutes each
of `ä`/`ö`/`ü`/`ß` by `ae`/`oe`/`ue`/`ss` character by character; every
other character passes through the substitution unchanged; hence any name
containing `Ä`/`Ö`/`Ü`/`ß` in either case yields the ASCII digraph in the
output, and normalizing the single name `Müller, Hans` yields exactly the
token `mueller_hans`. -/
theorem C1_roster_normalization :
    (∀ s : List Char, prepareName s = expandUmlauts (pyLower (replaceCommaSpace s)))
  ∧ (∀ c : Char, c ≠ 'ä' → c ≠ 'ö' → c ≠ 'ü' → c ≠ 'ß' → umlautSub c = [c])
  ∧ (∀ s : List Char, 'ä' ∈ s ∨ 'Ä' ∈ s → SubstringOf ['a', 'e'] (prepareName s))
  ∧ (∀ s : List Char, 'ö' ∈ s ∨ 'Ö' ∈ s → SubstringOf ['o', 'e'] (prepareName s))
  ∧ (∀ s : List Char, 'ü' ∈ s ∨ 'Ü' ∈ s → SubstringOf ['u', 'e'] (prepareName s))
  ∧ (∀ s : List Char, 'ß' ∈ s ∨ 'ẞ' ∈ s → SubstringOf ['s', 's'] (prepareName s))
  ∧ prepare_student_names ["Müller, Hans".toList] = ["mueller_hans".toList] := by
  refine ⟨fun s => rfl, ?_, ?_, ?_, ?_, ?_, by decide⟩
  · intro c h1 h2 h3 h4
    simp [umlautSub, h1, h2, h3, h4]
  · rintro s (h | h)
    · have he : umlautSub (pyLowerChar 'ä') = ['a', 'e'] := by decide
      exact he ▸ digraph_of_mem 'ä' (by decide) (by decide) s h
    · have he : umlautSub (pyLowerChar 'Ä') = ['a', 'e'] := by decide
      exact he ▸ digraph_of_mem 'Ä' (by decide) (by decide) s h
  · rintro s (h | h)
    · have he : umlautSub (pyLowerChar 'ö') = ['o', 'e'] := by decide
      exact he ▸ digraph_of_mem 'ö' (by decide) (by decide) s h
    · have he : umlautSub (pyLowerChar 'Ö') = ['o', 'e'] := by decide
      exact he ▸ digraph_of_mem 'Ö' (by decide) (by decide) s h
  · rintro s (h | h)
    · have he : umlautSub (pyLowerChar 'ü') = ['u', 'e'] := by decide
      exact he ▸ digraph_of_mem 'ü' (by decide) (by decide) s h
    · have he : umlautSub (pyLowerChar 'Ü') = ['u', 'e'] := by decide
      exact he ▸ digraph_of_mem 'Ü' (by decide) (by decide) s h
  · rintro s (h | h)
    · have he : umlautSub (pyLowerChar 'ß') = ['s', 's'] := by decide
      exact he ▸ digraph_of_mem 'ß' (by decide) (by decide) s h
    · have he : umlautSub (pyLowerChar 'ẞ') = ['s', 's'] := by decide
      exact he ▸ digraph_of_mem 'ẞ' (by decide) (by decide) s h

/-- Closed instance of C1: the substitution fixes `x`, and a name
containing `Ä` produces the digraph `ae`. -/
theorem C1_roster_normalization_witness :
    umlautSub 'x' = ['x'] ∧ SubstringOf ['a', 'e'] (prepareName ['Ä']) :=
  ⟨C1_roster_normalization.2.1 'x' (by decide) (by decide) (by decide) (by decide),
   C1_roster_normalization.2.2.1 ['Ä'] (Or.inr (by decide))⟩

/-- C2: an entry of the submission root is selected as a match exactly
when some canonical token is a contiguous substring of the lower-cased
entry name; non-matching entries contribute nothing to the run; and the
folder `Mueller_Hans_123` is matched by the token set containing only
`mueller_hans`. -/
theorem C2_substring_matching :
    (∀ (tokens : List (List Char)) (name : List Char),
        matchesEntry tokens name = true ↔ ∃ t ∈ tokens, SubstringOf t (pyLower name))
  ∧ (∀ (tokens : List (List Char)) (e : RootEntry) (rest : List RootEntry),
        matchesEntry tokens e.name = false →
        extract_homeworks tokens (e :: rest) = extract_homeworks tokens rest)
  ∧ matchesEntry ["mueller_hans".toList] "Mueller_Hans_123".toList = true := by
  refine ⟨?_, extract_skip, by decide⟩
  intro tokens name
  rw [matchesEntry, List.any_eq_true]
  constructor
  · rintro ⟨t, ht, hs⟩
    exact ⟨t, ht, (hasSub_iff _ _).mp hs⟩
  · rintro ⟨t, ht, hs⟩
    exact ⟨t, ht, (hasSub_iff _ _).mpr hs⟩

/-- Closed instance of C2: the matching test agrees with substring
containment on a concrete pair, and a non-matching entry is skipped. -/
theorem C2_substring_matching_witness :
    (matchesEntry [['a']] ['A'] = true ↔ ∃ t ∈ [(['a'] : List Char)], SubstringOf t (pyLower ['A']))
  ∧ extract_homeworks [['z']] [RootEntry.dir ['a'] []] = extract_homeworks [['z']] [] :=
  ⟨C2_substring_matching.1 [['a']] ['A'],
   C2_substring_matching.2.1 [['z']] (RootEntry.dir ['a'] []) [] (by decide)⟩

/-- C3: a matched submission folder with no `.pdf` file produces exactly
one warning and no copy, raises nothing, and the remaining entries are
still processed. -/
theorem C3_missing_pdf_skipped (tokens : List (List Char)) (n : List Char)
    (files : List (List Char × List Char)) (rest : List RootEntry)
    (hmatch : matchesEntry tokens n = true)
    (hnone : files.filter (fun f => endsWithPdf f.1) = []) :
    extract_homeworks tokens (RootEntry.dir n files :: rest)
      = (Event.warnNoPdf n :: (extract_homeworks tokens rest).1,
         (extract_homeworks tokens rest).2)
  ∧ warningsOf (extract_homeworks tokens (RootEntry.dir n files :: rest)).1
      = n :: warningsOf (extract_homeworks tokens rest).1
  ∧ copiesOf (extract_homeworks tokens (RootEntry.dir n files :: rest)).1
      = copiesOf (extract_homeworks tokens rest).1 := by
  have h1 : extract_homeworks tokens (RootEntry.dir n files :: rest)
      = (Event.warnNoPdf n :: (extract_homeworks tokens rest).1,
         (extract_homeworks tokens rest).2) := by
    rw [extract_homeworks, if_pos hmatch, hnone]
  refine ⟨h1, ?_, ?_⟩
  · rw [h1]
    simp [warningsOf, List.filterMap_cons]
  · rw [h1]
    simp [copiesOf, List.filterMap_cons]

/-- Closed instance of C3: a matched folder holding only `b.txt` yields
one warning and no copy. -/
theorem C3_missing_pdf_skipped_witness :
    extract_homeworks [['a']] [RootEntry.dir ['a'] [("b.txt".toList, [])]]
      = (Event.warnNoPdf ['a'] :: (extract_homeworks [['a']] []).1,
         (extract_homeworks [['a']] []).2)
  ∧ warningsOf (extract_homeworks [['a']] [RootEntry.dir ['a'] [("b.txt".toList, [])]]).1
      = ['a'] :: warningsOf (extract_homeworks [['a']] []).1
  ∧ copiesOf (extract_homeworks [['a']] [RootEntry.dir ['a'] [("b.txt".toList, [])]]).1
      = copiesOf (extract_homeworks [['a']] []).1 :=
  C3_missing_pdf_skipped [['a']] ['a'] [("b.txt".toList, [])] [] (by decide) (by decide)

/-- C4: a malformed archive, a roster read failure, and a missing
`Abgaben` directory are each caught at the orchestration boundary,
logged, and swallowed: every run ends with the cleanup step and the
process exit status is 0 on every input. -/
theorem C4_errors_swallowed :
    (∀ inp : RunInput, (main inp).exitCode = 0
        ∧ (main inp).events.getLast? = some Event.removeTemp)
  ∧ (∀ inp : RunInput, inp.zip.entries = none →
        Event.logError invalidArchiveErr ∈ (main inp).events)
  ∧ (∀ (inp : RunInput) (es : List (List Char × List Char)),
        inp.zip.entries = some es → inp.rosterOk = false →
        Event.logError rosterReadErr ∈ (main inp).events)
  ∧ (∀ (inp : RunInput) (es : List (List Char × List Char)),
        inp.zip.entries = some es → inp.rosterOk = true → inp.hasAbgaben = false →
        Event.logError missingRootErr ∈ (main inp).events) := by
  refine ⟨?_, ?_, ?_, ?_⟩
  · intro inp
    refine ⟨rfl, ?_⟩
    show ((tryBody inp).1 ++ _ ++ [Event.removeTemp]).getLast? = some Event.removeTemp
    rw [List.getLast?_concat]
  · intro inp h
    simp [main, tryBody_invalid inp h]
  · intro inp es h hr
    simp [main, tryBody_roster inp es h hr]
  · intro inp es h hr ha
    simp [main, tryBody_missing inp es h hr ha]

/-- Closed instance of C4: each of the three failures at a concrete
input is logged, with exit status 0 and final cleanup. -/
theorem C4_errors_swallowed_witness :
    ((main ⟨⟨['z'], none⟩, true, [], true, []⟩).exitCode = 0
      ∧ (main ⟨⟨['z'], none⟩, true, [], true, []⟩).events.getLast?
          = some Event.removeTemp)
  ∧ Event.logError invalidArchiveErr ∈ (main ⟨⟨['z'], none⟩, true, [], true, []⟩).events
  ∧ Event.logError rosterReadErr ∈ (main ⟨⟨['z'], some []⟩, false, [], true, []⟩).events
  ∧ Event.logError missingRootErr ∈ (main ⟨⟨['z'], some []⟩, true, [], false, []⟩).events :=
  ⟨C4_errors_swallowed.1 ⟨⟨['z'], none⟩, true, [], true, []⟩,
   C4_errors_swallowed.2.1 ⟨⟨['z'], none⟩, true, [], true, []⟩ rfl,
   C4_errors_swallowed.2.2.1 ⟨⟨['z'], some []⟩, false, [], true, []⟩ [] rfl rfl,
   C4_errors_swallowed.2.2.2 ⟨⟨['z'], some []⟩, true, [], false, []⟩ [] rfl rfl rfl⟩

/-- C5: the scratch directory is removed on every exit path — after any
run no scratch directory is left and the final trace step is its removal
— and in particular a corrupt non-zip input yields the logged error
followed by cleanup, with normal exit. -/
theorem C5_scratch_removed :
    (∀ inp : RunInput, scratchLeft (main inp).events = false
        ∧ (main inp).events.getLast? = some Event.removeTemp
        ∧ (main inp).exitCode = 0)
  ∧ (∀ inp : RunInput, inp.zip.entries = none →
        (main inp).events = [Event.logError invalidArchiveErr, Event.removeTemp]
        ∧ scratchLeft (main inp).events = false
        ∧ (main inp).exitCode = 0) := by
  constructor
  · intro inp
    refine ⟨?_, ?_, rfl⟩
    · show scratchLeft ((tryBody inp).1 ++ _ ++ [Event.removeTemp]) = false
      exact scratchLeft_concat_removeTemp _
    · show ((tryBody inp).1 ++ _ ++ [Event.removeTemp]).getLast? = some Event.removeTemp
      rw [List.getLast?_concat]
  · intro inp h
    have hm : (main inp).events = [Event.logError invalidArchiveErr, Event.removeTemp] := by
      simp [main, tryBody_invalid inp h]
    exact ⟨hm, by rw [hm]; rfl, rfl⟩

/-- Closed instance of C5: a run on a malformed archive leaves no
scratch directory and exits normally. -/
theorem C5_scratch_removed_witness :
    (scratchLeft (main ⟨⟨['z'], none⟩, true, [], true, []⟩).events = false
      ∧ (main ⟨⟨['z'], none⟩, true, [], true, []⟩).events.getLast?
          = some Event.removeTemp
      ∧ (main ⟨⟨['z'], none⟩, true, [], true, []⟩).exitCode = 0)
  ∧ ((main ⟨⟨['z'], none⟩, true, [], true, []⟩).events
        = [Event.logError invalidArchiveErr, Event.removeTemp]
      ∧ scratchLeft (main ⟨⟨['z'], none⟩, true, [], true, []⟩).events = false
      ∧ (main ⟨⟨['z'], none⟩, true, [], true, []⟩).exitCode = 0) :=
  ⟨C5_scratch_removed.1 ⟨⟨['z'], none⟩, true, [], true, []⟩,
   C5_scratch_removed.2 ⟨⟨['z'], none⟩, true, [], true, []⟩ rfl⟩

/-- C6: on a well-formed archive, `unzip` extracts every entry into the
destination directory preserving its relative path and returns the
archive file name without its extension; on a malformed archive it fails
with the `BadZipFile` error, propagated to the caller with nothing
extracted. -/
theorem C6_unzip_contract :
    (∀ (z : ZipInput) (out : List Char) (es : List (List Char × List Char)),
        z.entries = some es →
        unzip z out = Except.ok (es.map (fun e => (joinPath out e.1, e.2)),
                                 splitextStem (pyBasename z.path))
        ∧ ∀ e ∈ es, (joinPath out e.1, e.2)
            ∈ es.map (fun e => (joinPath out e.1, e.2)))
  ∧ (∀ d b : List Char, b ≠ [] → '/' ∉ b → '.' ∉ b →
        splitextStem (pyBasename (d ++ '/' :: (b ++ ".zip".toList))) = b)
  ∧ (∀ (z : ZipInput) (out : List Char), z.entries = none →
        unzip z out = Except.error ()) := by
  refine ⟨?_, ?_, ?_⟩
  · intro z out es h
    refine ⟨by simp [unzip, h], ?_⟩
    intro e he
    exact List.mem_map_of_mem _ he
  · intro d b hb hs hd
    rw [pyBasename_append d (b ++ ".zip".toList) ?_, splitextStem_zip b hb hd]
    intro hmem
    rcases List.mem_append.mp hmem with h | h
    · exact hs h
    · simp at h
  · intro z out h
    simp [unzip, h]

/-- Closed instance of C6: a two-entry archive extracts both entries and
returns the stem `batch`; a malformed one fails. -/
theorem C6_unzip_contract_witness :
    (unzip ⟨"d/batch.zip".toList, some [("a".toList, ['x'])]⟩ "temp".toList
        = Except.ok ([(joinPath "temp".toList "a".toList, ['x'])],
                     splitextStem (pyBasename "d/batch.zip".toList))
      ∧ ∀ e ∈ [(("a".toList : List Char), (['x'] : List Char))],
          (joinPath "temp".toList e.1, e.2)
            ∈ [(("a".toList : List Char), (['x'] : List Char))].map
                (fun e => (joinPath "temp".toList e.1, e.2)))
  ∧ splitextStem (pyBasename ("d".toList ++ '/' :: ("batch".toList ++ ".zip".toList)))
      = "batch".toList
  ∧ unzip ⟨"d/batch.zip".toList, none⟩ "temp".toList = Except.error () :=
  ⟨C6_unzip_contract.1 ⟨"d/batch.zip".toList, some [("a".toList, ['x'])]⟩
      "temp".toList [("a".toList, ['x'])] rfl,
   C6_unzip_contract.2.1 "d".toList "batch".toList (by decide) (by decide) (by decide),
   C6_unzip_contract.2.2 ⟨"d/batch.zip".toList, none⟩ "temp".toList rfl⟩

/-- C7: for a matched folder with at least one PDF, the file copied is
the first child in listing order whose name ends in `.pdf`, placed under
its original name; and replaying copies onto the output directory makes
a later copy of a shared file name overwrite the earlier content. -/
theorem C7_first_pdf_copied :
    (∀ (tokens : List (List Char)) (n : List Char)
        (files : List (List Char × List Char)) (rest : List RootEntry)
        (p : List Char × List Char),
        matchesEntry tokens n = true →
        files.find? (fun f => endsWithPdf f.1) = some p →
        extract_homeworks tokens (RootEntry.dir n files :: rest)
          = (Event.copyFile p.1 p.2 :: (extract_homeworks tokens rest).1,
             (extract_homeworks tokens rest).2))
  ∧ (∀ (d cs : List (List Char × List Char)) (n v : List Char),
        lookupName (applyCopies d (cs ++ [(n, v)])) n = some v) := by
  constructor
  · intro tokens n files rest p hm hfind
    rw [find?_eq_filter_head] at hfind
    rw [extract_homeworks, if_pos hm]
    cases hq : files.filter (fun f => endsWithPdf f.1) with
    | nil => rw [hq] at hfind; simp at hfind
    | cons q t =>
        rw [hq] at hfind
        rw [List.head?_cons] at hfind
        injection hfind with hqp
        rw [hqp]
  · intro d cs n v
    rw [applyCopies_append_single]
    exact lookupName_insertCopy _ n v

/-- Closed instance of C7: of two children the first PDF in listing
order is copied, and a second copy under the same name overwrites the
first. -/
theorem C7_first_pdf_copied_witness :
    extract_homeworks [['a']]
        [RootEntry.dir ['a'] [("x.txt".toList, ['1']), ("h.pdf".toList, ['2'])]]
      = (Event.copyFile "h.pdf".toList ['2']
           :: (extract_homeworks [['a']] []).1,
         (extract_homeworks [['a']] []).2)
  ∧ lookupName (applyCopies [] ([("h.pdf".toList, ['1'])] ++ [("h.pdf".toList, ['2'])]))
      "h.pdf".toList = some ['2'] :=
  ⟨C7_first_pdf_copied.1 [['a']] ['a']
      [("x.txt".toList, ['1']), ("h.pdf".toList, ['2'])] [] ("h.pdf".toList, ['2'])
      (by decide) (by decide),
   C7_first_pdf_copied.2 [] [("h.pdf".toList, ['1'])] "h.pdf".toList ['2']⟩

/-- C8 counterexample: two runs on the same archive with the same roster,
each started on an empty output directory, whose only difference is the
order in which the file system enumerates the two PDFs inside the one
matched folder (the listings are permutations of each other), produce
different output directories — identical archive and roster alone do not
make re-runs byte-identical, because `pdf_files[0]` depends on the
enumeration order. -/
theorem C8_deterministic_counterexample :
    (RunInput.mk ⟨"b.zip".toList, some []⟩ true [['a']] true
        [RootEntry.dir ['a'] [("1.pdf".toList, ['1']), ("2.pdf".toList, ['2'])]]).zip
      = (RunInput.mk ⟨"b.zip".toList, some []⟩ true [['a']] true
        [RootEntry.dir ['a'] [("2.pdf".toList, ['2']), ("1.pdf".toList, ['1'])]]).zip
  ∧ (RunInput.mk ⟨"b.zip".toList, some []⟩ true [['a']] true
        [RootEntry.dir ['a'] [("1.pdf".toList, ['1']), ("2.pdf".toList, ['2'])]]).rosterLines
      = (RunInput.mk ⟨"b.zip".toList, some []⟩ true [['a']] true
        [RootEntry.dir ['a'] [("2.pdf".toList, ['2']), ("1.pdf".toList, ['1'])]]).rosterLines
  ∧ List.Perm [("1.pdf".toList, ['1']), ("2.pdf".toList, ['2'])]
      [("2.pdf".toList, ['2']), ("1.pdf".toList, ['1'])]
  ∧ runOutputDir (RunInput.mk ⟨"b.zip".toList, some []⟩ true [['a']] true
        [RootEntry.dir ['a'] [("1.pdf".toList, ['1']), ("2.pdf".toList, ['2'])]])
      ≠ runOutputDir (RunInput.mk ⟨"b.zip".toList, some []⟩ true [['a']] true
        [RootEntry.dir ['a'] [("2.pdf".toList, ['2']), ("1.pdf".toList, ['1'])]]) := by
  decide

/-- C8 (amended): re-runs are byte-identical up to directory-enumeration
order: two runs with the same archive, the same roster availability and
lines, and the same `Abgaben` presence, whose submission-root listings
agree except that a folder holding at most one PDF may have its children
enumerated in a different order, produce identical event traces and
byte-identical output directories; the at-most-one-PDF bound is what the
counterexample shows to be necessary. -/
theorem C8_deterministic_amended (a b : RunInput)
    (hz : a.zip = b.zip) (hro : a.rosterOk = b.rosterOk)
    (hrl : a.rosterLines = b.rosterLines) (hha : a.hasAbgaben = b.hasAbgaben)
    (hab : List.Forall₂ entryRel a.abgaben b.abgaben) :
    main a = main b ∧ runOutputDir a = runOutputDir b := by
  have htok : runTokens a = runTokens b := by
    unfold runTokens
    rw [hrl]
  have hex : extract_homeworks (runTokens a) a.abgaben
      = extract_homeworks (runTokens b) b.abgaben := by
    rw [htok]
    exact extract_forall₂ (runTokens b) a.abgaben b.abgaben hab
  have htb : tryBody a = tryBody b := by
    unfold tryBody
    rw [hz, hro, hha, hex]
  have hm : main a = main b := by
    unfold main
    rw [htb]
  refine ⟨hm, ?_⟩
  unfold runOutputDir
  rw [hm]

/-- Closed instance of amended C8: one folder with a single PDF and a
second child, enumerated in both orders, gives the same trace and the
same output directory. -/
theorem C8_deterministic_amended_witness :
    main (RunInput.mk ⟨"b.zip".toList, some []⟩ true [['a']] true
        [RootEntry.dir ['a'] [("h.pdf".toList, ['1']), ("x.txt".toList, ['2'])]])
      = main (RunInput.mk ⟨"b.zip".toList, some []⟩ true [['a']] true
        [RootEntry.dir ['a'] [("x.txt".toList, ['2']), ("h.pdf".toList, ['1'])]])
  ∧ runOutputDir (RunInput.mk ⟨"b.zip".toList, some []⟩ true [['a']] true
        [RootEntry.dir ['a'] [("h.pdf".toList, ['1']), ("x.txt".toList, ['2'])]])
      = runOutputDir (RunInput.mk ⟨"b.zip".toList, some []⟩ true [['a']] true
        [RootEntry.dir ['a'] [("x.txt".toList, ['2']), ("h.pdf".toList, ['1'])]]) :=
  C8_deterministic_amended
    (RunInput.mk ⟨"b.zip".toList, some []⟩ true [['a']] true
      [RootEntry.dir ['a'] [("h.pdf".toList, ['1']), ("x.txt".toList, ['2'])]])
    (RunInput.mk ⟨"b.zip".toList, some []⟩ true [['a']] true
      [RootEntry.dir ['a'] [("x.txt".toList, ['2']), ("h.pdf".toList, ['1'])]])
    rfl rfl rfl rfl
    (List.Forall₂.cons
      (Or.inr ⟨['a'], [("h.pdf".toList, ['1']), ("x.txt".toList, ['2'])],
        [("x.txt".toList, ['2']), ("h.pdf".toList, ['1'])], rfl, rfl,
        by decide, by decide⟩)
      List.Forall₂.nil)

/-- C9: a blank or whitespace-only roster line is stripped to the empty
string, prepared into the empty token, and since the empty string is a
substring of every entry name, every submission-root entry is then
treated as a match. -/
theorem C9_blank_roster_line :
    (∀ line : List Char, line.all isPySpace = true → stripLine line = [])
  ∧ prepareName [] = []
  ∧ (∀ (tokens : List (List Char)) (name : List Char),
        [] ∈ tokens → matchesEntry tokens name = true)
  ∧ (∀ (lines : List (List Char)) (line : List Char), line ∈ lines →
        line.all isPySpace = true →
        ∀ name : List Char,
          matchesEntry (prepare_student_names (read_student_names lines)) name = true) := by
  refine ⟨stripLine_eq_nil_of_all, rfl, matchesEntry_of_nil_mem, ?_⟩
  intro lines line hline hall name
  refine matchesEntry_of_nil_mem _ _ ?_
  have hnil : prepareName (stripLine line) = [] := by
    rw [stripLine_eq_nil_of_all line hall]
    rfl
  rw [prepare_student_names, read_student_names, ← hnil]
  exact List.mem_map_of_mem _ (List.mem_map_of_mem _ hline)

/-- Closed instance of C9: a roster consisting of one whitespace line
makes an arbitrary folder name match. -/
theorem C9_blank_roster_line_witness :
    stripLine [' ', '\t'] = []
  ∧ matchesEntry [[]] "Unknown_Person".toList = true
  ∧ matchesEntry (prepare_student_names (read_student_names [[' ']]))
      "Unknown_Person".toList = true :=
  ⟨C9_blank_roster_line.1 [' ', '\t'] (by decide),
   C9_blank_roster_line.2.2.1 [[]] "Unknown_Person".toList (by decide),
   C9_blank_roster_line.2.2.2 [[' ']] [' '] (by decide) (by decide)
     "Unknown_Person".toList⟩

/-- C10: when a matched submission-root entry is a regular file, listing
it raises, so `extract_homeworks` aborts at that entry with no further
entries processed, and `main` logs exactly one error for the whole run
before cleaning up and exiting normally. -/
theorem C10_file_entry_aborts :
    (∀ (tokens : List (List Char)) (n c : List Char) (rest : List RootEntry),
        matchesEntry tokens n = true →
        extract_homeworks tokens (RootEntry.file n c :: rest) = ([], some n))
  ∧ (∀ (inp : RunInput) (es : List (List Char × List Char)) (n c : List Char)
        (pre post : List RootEntry),
        inp.zip.entries = some es → inp.rosterOk = true → inp.hasAbgaben = true →
        inp.abgaben = pre ++ RootEntry.file n c :: post →
        (∀ e ∈ pre, matchesEntry (runTokens inp) e.name = false) →
        matchesEntry (runTokens inp) n = true →
        (main inp).events = [Event.logError (notADirErr n), Event.removeTemp]
        ∧ errorsOf (main inp).events = [notADirErr n]
        ∧ (main inp).exitCode = 0) := by
  constructor
  · intro tokens n c rest h
    rw [extract_homeworks, if_pos h]
  · intro inp es n c pre post hz hr ha habg hpre hm
    have hex : extract_homeworks (runTokens inp) inp.abgaben = ([], some n) := by
      rw [habg, extract_skip_all _ pre _ hpre, extract_homeworks, if_pos hm]
    have htb : tryBody inp = ([], some (notADirErr n)) := by
      unfold tryBody
      rw [hz]
      simp [hr, ha, hex]
    have hev : (main inp).events
        = [Event.logError (notADirErr n), Event.removeTemp] := by
      simp [main, htb]
    refine ⟨hev, ?_, rfl⟩
    rw [hev]
    rfl

/-- Closed instance of C10: a single matched file entry aborts the
scan, and the run logs one error, cleans up, and exits normally. -/
theorem C10_file_entry_aborts_witness :
    extract_homeworks [['a']] [RootEntry.file ['x', 'a'] []] = ([], some ['x', 'a'])
  ∧ ((main ⟨⟨['z'], some []⟩, true, [['a']], true, [RootEntry.file ['a'] []]⟩).events
        = [Event.logError (notADirErr ['a']), Event.removeTemp]
     ∧ errorsOf (main ⟨⟨['z'], some []⟩, true, [['a']], true,
          [RootEntry.file ['a'] []]⟩).events = [notADirErr ['a']]
     ∧ (main ⟨⟨['z'], some []⟩, true, [['a']], true,
          [RootEntry.file ['a'] []]⟩).exitCode = 0) :=
  ⟨C10_file_entry_aborts.1 [['a']] ['x', 'a'] [] [] (by decide),
   C10_file_entry_aborts.2 ⟨⟨['z'], some []⟩, true, [['a']], true, [RootEntry.file ['a'] []]⟩
     [] ['a'] [] [] [] rfl rfl rfl rfl (by decide) (by decide)⟩

end CorrectionScript
